import Mathlib

/-!
A shallow embedding of `skbio/core/workflow.py` (the `Workflow` class): a
per-item pipeline executor with priority-ordered steps, requirement gating
on runtime options and state, short-circuiting on failure, and an optional
debug trace.  Pure Python values appearing as option values are modelled by
the inductive type `Value`; the mutable `Workflow` instance is modelled by
explicit state passing over `WFState`.
-/

/-- Model of the Python values used as runtime option values
(`options = {'option': value}`).  `Value.pynone` models Python `None`. -/
inductive Value where
  | str (s : String)
  | bool (b : Bool)
  | int (n : Int)
  | pynone
deriving DecidableEq, Repr

/-- Python `==` on the modelled values.  Python compares `bool` and `int`
numerically (`True == 1`, `False == 0`); `None` equals only `None`. -/
def pyEq : Value → Value → Bool
  | Value.str s, Value.str t => s == t
  | Value.pynone, Value.pynone => true
  | Value.bool a, Value.bool b => a == b
  | Value.int m, Value.int n => m == n
  | Value.bool a, Value.int n => (if a then (1 : Int) else 0) == n
  | Value.int m, Value.bool b => m == (if b then (1 : Int) else 0)
  | _, _ => false

/-- Predicate `leadsWith needle hay`: true when `needle` occurs at the head of
`hay` (character-by-character match). -/
def leadsWith : List Char → List Char → Bool
  | [], _ => true
  | _ :: _, [] => false
  | a :: as, b :: bs => a == b && leadsWith as bs

/-- Predicate `occursIn needle hay`: `needle` occurs contiguously somewhere in `hay`.
The empty needle occurs in every list, as in Python. -/
def occursIn : List Char → List Char → Bool
  | needle, [] => needle.isEmpty
  | needle, c :: t => leadsWith needle (c :: t) || occursIn needle t

/-- Model of Python's substring test `sub in hay` on `str`. -/
def strContains (hay sub : String) : Bool := occursIn sub.toList hay.toList

/-- The normalized form of `Workflow.requires.self.values` as stored by
`requires.__init__`: the `anything` sentinel (`Exists`), the `not_none`
sentinel (`NotNone`), a raw string kept whole (`isinstance(values, str)`),
or a finite set of values. -/
inductive ValuesSpec where
  | anything
  | not_none
  | strLit (s : String)
  | finite (vs : List Value)
deriving DecidableEq, Repr

/-- The argument forms accepted by `Workflow.requires(values=...)`, before
normalization: the two sentinels, a `set`, a `str`, a non-`str` non-`set`
iterable, or a single non-iterable literal. -/
inductive RawValues where
  | anything
  | not_none
  | set (vs : List Value)
  | str (s : String)
  | iter (vs : List Value)
  | single (v : Value)

/-- Model of `Workflow.requires.__init__`'s normalization of the `values` argument.
Python's `set(...)` only deduplicates, which does not affect membership, so
sets are kept as lists. -/
def normalizeValues : RawValues → ValuesSpec
  | RawValues.anything => ValuesSpec.anything
  | RawValues.not_none => ValuesSpec.not_none
  | RawValues.set vs => ValuesSpec.finite vs
  | RawValues.str s => ValuesSpec.strLit s
  | RawValues.iter vs => ValuesSpec.finite vs
  | RawValues.single v => ValuesSpec.finite [v]

/-- Python's `val in self.values` for each normalized form:
`Exists.__contains__` is constantly true, `NotNone.__contains__` tests
against `None`, membership in a `str` is the substring test, and membership
in a set compares with `==`.  The operation is partial: `val in s` for a
`str` `s` and a non-`str` `val` raises `TypeError` in Python, modelled by
`Option.none`; every other combination evaluates without raising. -/
def valuesContains : ValuesSpec → Value → Option Bool
  | ValuesSpec.anything, _ => Option.some true
  | ValuesSpec.not_none, v => match v with
    | Value.pynone => Option.some false
    | _ => Option.some true
  | ValuesSpec.strLit s, v => match v with
    | Value.str t => Option.some (strContains s t)
    | _ => Option.none
  | ValuesSpec.finite vs, v => Option.some (vs.any (fun u => pyEq v u))

/-- The data of one `Workflow.requires` decoration: the required option
key, the normalized acceptable values, and the optional state predicate. -/
structure Requires (σ : Type) where
  option : Option String
  values : ValuesSpec
  required_state : Option (σ → Bool)

/-- One workflow method: its attribute name, its `Workflow.method`
priority, its optional `Workflow.requires` decoration, and its body.  The
body reads and rewrites the `state` and `failed` attributes of the
instance (the only instance fields step bodies touch in this module). -/
structure Step (σ : Type) where
  name : String
  priority : Int
  req : Option (Requires σ)
  body : σ → Bool → σ × Bool

/-- Whether a call through the `requires`-decorated method executed the
underlying function, returned the `_not_executed` sentinel, or raised an
exception (`TypeError` from evaluating `val in self.values` with a `str`
spec and a non-`str` value); a raised exception propagates and terminates
the whole Python run. -/
inductive ExecResult where
  | executed
  | notExecuted
  | raised
deriving DecidableEq, Repr

/-- The option-gating part of `requires.__call__.decorated`: after the
state requirement passed, look up `self.option` in the instance options
and decide, mirroring the source's branch structure: the sentinel test
`values is not_none and val is not None` runs first (it cannot raise);
only then is `val in self.values` evaluated, which either raises
`TypeError` (`ExecResult.raised`, state and flag as they were at the
moment the exception propagates) or yields the membership verdict. -/
def runReqOpt {σ : Type} (rq : Requires σ) (body : σ → Bool → σ × Bool)
    (opts : List (String × Value)) (st : σ) (fl : Bool) :
    (σ × Bool) × ExecResult :=
  match rq.option with
  | Option.none => (body st fl, ExecResult.executed)
  | Option.some o =>
    match List.lookup o opts with
    | Option.some val =>
      if rq.values = ValuesSpec.not_none ∧ val ≠ Value.pynone then
        (body st fl, ExecResult.executed)
      else
        match valuesContains rq.values val with
        | Option.none => ((st, fl), ExecResult.raised)
        | Option.some verdict =>
          if verdict then (body st fl, ExecResult.executed)
          else ((st, fl), ExecResult.notExecuted)
    | Option.none => ((st, fl), ExecResult.notExecuted)

/-- Invoking one workflow method on the instance: either the bare body
(no `requires` decoration), or `requires.__call__.decorated`, which first
evaluates the state predicate, then the option gate. -/
def runStepInner {σ : Type} (s : Step σ) (opts : List (String × Value))
    (st : σ) (fl : Bool) : (σ × Bool) × ExecResult :=
  match s.req with
  | Option.none => (s.body st fl, ExecResult.executed)
  | Option.some rq =>
    match rq.required_state with
    | Option.some p =>
      if p st then runReqOpt rq s.body opts st fl
      else ((st, fl), ExecResult.notExecuted)
    | Option.none => runReqOpt rq s.body opts st fl

/-- The mutable fields of a `Workflow` instance that the executor and the
debug machinery read and write.  The elapsed wall-clock time stored in
`debug_runtime` is outside a pure model; the map is kept with a
placeholder `0` value so that which keys are present is faithful. -/
structure WFState (σ : Type) where
  state : σ
  failed : Bool
  debug_counter : Nat
  debug_trace : List (String × Nat)
  debug_runtime : List ((String × Nat) × Nat)
  debug_pre_state : List ((String × Nat) × σ)
  debug_post_state : List ((String × Nat) × σ)
deriving DecidableEq, Repr

/-- Model of `Workflow._setup_debug_trace`: reset the per-item debug bookkeeping. -/
def setupDebugTrace {σ : Type} (w : WFState σ) : WFState σ :=
  { w with debug_counter := 0, debug_trace := [], debug_runtime := [],
           debug_pre_state := [], debug_post_state := [] }

/-- A plain (non-debug) call of a workflow method from the executor loop:
the return value of the method is discarded (on a raising gate the fields
are those at the moment the exception propagates, and the Python run
terminates — the full-run theorems concern workflows whose gates never
raise). -/
def plainCall {σ : Type} (s : Step σ) (opts : List (String × Value))
    (w : WFState σ) : WFState σ :=
  let r := runStepInner s opts w.state w.failed
  { w with state := r.1.1, failed := r.1.2 }

/-- Model of `Workflow._debug_trace_wrapper.wrapped`: allocate the next counter
value, add the key to the trace, snapshot the state, call the method; on
the `_not_executed` sentinel remove the key again, otherwise record the
runtime and the pre/post state snapshots.  When the inner call raises,
the exception propagates out of `wrapped` before the `if`: the key stays
in the trace, the counter stays advanced, and no runtime or pre/post
entry is made — the `raised` arm returns the instance fields exactly as
they are at that moment (the Python run then terminates; the full-run
theorems below concern workflows whose gates never raise). -/
def debugWrapped {σ : Type} (s : Step σ) (opts : List (String × Value))
    (w : WFState σ) : WFState σ :=
  let key : String × Nat := (s.name, w.debug_counter)
  let pre := w.state
  let w1 := { w with debug_trace := w.debug_trace ++ [key],
                     debug_counter := w.debug_counter + 1 }
  let r := runStepInner s opts w1.state w1.failed
  match r.2 with
  | ExecResult.notExecuted =>
    { w1 with state := r.1.1, failed := r.1.2,
              debug_trace := w1.debug_trace.erase key }
  | ExecResult.executed =>
    { w1 with state := r.1.1, failed := r.1.2,
              debug_runtime := w1.debug_runtime ++ [(key, 0)],
              debug_pre_state := w1.debug_pre_state ++ [(key, pre)],
              debug_post_state := w1.debug_post_state ++ [(key, r.1.1)] }
  | ExecResult.raised =>
    { w1 with state := r.1.1, failed := r.1.2 }

/-- Stable insertion used to model Python's stable `sorted`: `x` is placed
after every element `y` it does not strictly precede (`le y x`), so equal
elements keep their original relative order. -/
def insertBy {α : Type} (le : α → α → Bool) (x : α) : List α → List α
  | [] => [x]
  | y :: ys => if le y x then y :: insertBy le x ys else x :: y :: ys

/-- A stable sort (extensionally equal to Python's `sorted`, which is a
stable sort by key). -/
def sortBy {α : Type} (le : α → α → Bool) (l : List α) : List α :=
  l.foldl (fun acc x => insertBy le x acc) []

/-- Lexicographic order on character lists: the order in which Python's
`dir()` enumerates attribute names (it returns them sorted). -/
def charsLe : List Char → List Char → Bool
  | [], _ => true
  | _ :: _, [] => false
  | a :: as, b :: bs => if a = b then charsLe as bs else decide (a < b)

/-- Name order on strings, modelling `dir()`'s alphabetical listing. -/
def strLe (a b : String) : Bool := charsLe a.toList b.toList

/-- Comparison of steps by attribute name. -/
def nameLe {σ : Type} (a b : Step σ) : Bool := strLe a.name b.name

/-- Comparison of steps by priority, descending (`sorted(...,
key=priority, reverse=True)` keeps `y` before `x` iff
`x.priority <= y.priority`). -/
def prioGe {σ : Type} (a b : Step σ) : Bool := decide (b.priority ≤ a.priority)

/-- Model of `Workflow._all_wf_methods` minus the debug insertion: enumerate the
workflow methods in `dir()` order (alphabetical by attribute name), then
sort by priority descending with Python's stable `sorted`. -/
def methodsSorted {σ : Type} (steps : List (Step σ)) : List (Step σ) :=
  sortBy prioGe (sortBy nameLe steps)

/-- The construction-time configuration of a concrete `Workflow`
subclass together with its per-run options: the declared workflow methods
(in declaration order), `short_circuit`, `debug`, `options`, and the
mandatory `initialize_state` collaborator (which reads the old state and
the item and produces the new state). -/
structure Conf (σ ι : Type) where
  steps : List (Step σ)
  short_circuit : Bool
  debug : Bool
  options : List (String × Value)
  initialize_state : σ → ι → σ

/-- The step loop of `Workflow.__call__` for one item: walk the prepared
callables, stopping before the next one as soon as `short_circuit` is set
and the instance is marked failed. -/
def itemLoop {σ : Type} (sc : Bool) :
    List (WFState σ → WFState σ) → WFState σ → WFState σ
  | [], w => w
  | f :: fs, w => if sc && w.failed then w else itemLoop sc fs (f w)

/-- The per-item part of `Workflow.__call__` before the step loop: clear
`failed` and call `initialize_state(item)`. -/
def initItem {σ ι : Type} (conf : Conf σ ι) (w : WFState σ) (item : ι) :
    WFState σ :=
  { w with failed := false, state := conf.initialize_state w.state item }

/-- The prepared callables the executor iterates over: the sorted workflow
methods, each wrapped by `_debug_trace_wrapper` when `debug` is on (done
by `_setup_debug` at construction), with `_setup_debug_trace` inserted at
position zero when `debug` is on (done by `_all_wf_methods`). -/
def workflowFuncs {σ ι : Type} (conf : Conf σ ι) :
    List (WFState σ → WFState σ) :=
  let fns := (methodsSorted conf.steps).map (fun s =>
    if conf.debug then debugWrapped s conf.options else plainCall s conf.options)
  if conf.debug then setupDebugTrace :: fns else fns

/-- Processing of one item by `Workflow.__call__`: reset `failed`,
initialize the state, run the step loop. -/
def processItem {σ ι : Type} (conf : Conf σ ι) (w : WFState σ) (item : ι) :
    WFState σ :=
  itemLoop conf.short_circuit (workflowFuncs conf) (initItem conf w item)

/-- Model of `Workflow.__call__` on a finite iterable, after the default success
callback has been resolved (`success_callback = lambda x: x.state` when
`None` is passed): the lazy generator is modelled as the list of yielded
results, threading the mutable instance through the items. -/
def wfCall {σ ι ρ : Type} (conf : Conf σ ι) (items : List ι)
    (succ : WFState σ → ρ) (fail : Option (WFState σ → ρ))
    (w : WFState σ) : List ρ :=
  match items with
  | [] => []
  | it :: rest =>
    let w2 := processItem conf w it
    let outs := if w2.failed then
        (match fail with
         | Option.some f => [f w2]
         | Option.none => [])
      else [succ w2]
    outs ++ wfCall conf rest succ fail w2

/-- The sequence of instance snapshots after each item of a run (the
specification-side view used to state properties of `wfCall`). -/
def runStates {σ ι : Type} (conf : Conf σ ι) (w : WFState σ) :
    List ι → List (WFState σ)
  | [] => []
  | it :: rest =>
    let w2 := processItem conf w it
    w2 :: runStates conf w2 rest

/-- The instance fields as `Workflow.__init__` leaves them, before any
item is processed.  The debug containers do not exist yet in Python; empty
placeholders stand for them (every claim about them concerns the values
after `_setup_debug_trace` ran). -/
def initialWFState {σ : Type} (st : σ) : WFState σ :=
  { state := st, failed := false, debug_counter := 0, debug_trace := [],
    debug_runtime := [], debug_pre_state := [], debug_post_state := [] }

/-! ### The `SequenceProcessor` example workflow

The concrete subclass from the module docstring: `check_length`
(priority 100, fails short sequences), `truncate` (priority 90, requires
the state to start with `"AATTG"`, strips it), `reverse` (priority 80,
requires option `reverse` with value `True`).  Declaration order in the
class body is `check_length`, `truncate`, `reverse`. -/

/-- The docstring example's `has_nuc_pattern`: `s[:len('AATTG')] == 'AATTG'`. -/
def has_nuc_pattern (s : String) : Bool := s.take 5 == "AATTG"

/-- Step `check_length` (priority 100): mark the item failed when the sequence
is shorter than 10 nucleotides. -/
def check_length : Step String :=
  { name := "check_length", priority := 100, req := Option.none,
    body := fun st fl => (st, if st.length < 10 then true else fl) }

/-- Step `truncate` (priority 90, requires `state=has_nuc_pattern`): strip the
leading `'AATTG'`. -/
def truncate : Step String :=
  { name := "truncate", priority := 90,
    req := Option.some { option := Option.none, values := ValuesSpec.anything,
                         required_state := Option.some has_nuc_pattern },
    body := fun st fl => (st.drop 5, fl) }

/-- Step `reverse` (priority 80, requires `option='reverse', values=True`;
`True` is not iterable, so `__init__` stores `set([True])`). -/
def reverse : Step String :=
  { name := "reverse", priority := 80,
    req := Option.some { option := Option.some "reverse",
                         values := normalizeValues (RawValues.single (Value.bool true)),
                         required_state := Option.none },
    body := fun st fl => (String.mk st.toList.reverse, fl) }

/-- The `SequenceProcessor` methods in class-body declaration order. -/
def seqProcSteps : List (Step String) := [check_length, truncate, reverse]

/-- Configuration `SequenceProcessor(state=None, options={'reverse': False})`:
`short_circuit` and `debug` keep their defaults; `initialize_state` sets
`self.state = item`. -/
def seqConf : Conf String String :=
  { steps := seqProcSteps, short_circuit := true, debug := false,
    options := [("reverse", Value.bool false)],
    initialize_state := fun _ item => item }

/-- The same processor with `debug=True`. -/
def seqDebugConf : Conf String String :=
  { seqConf with debug := true }

/-- The four example input sequences. -/
def seqInputs : List String :=
  ["AAAAAAATTTTTTT", "ATAGACC", "AATTGCCGGAC", "ATATGAACAAA"]

/-! ### Helper lemmas about the stable sort -/

theorem insertBy_perm {α : Type} (le : α → α → Bool) (x : α) :
    ∀ l : List α, List.Perm (insertBy le x l) (x :: l)
  | [] => List.Perm.refl _
  | y :: ys => by
    unfold insertBy
    by_cases h : le y x = true
    · simp only [h, if_true]
      exact ((insertBy_perm le x ys).cons y).trans (List.Perm.swap x y ys)
    · simp [h]

theorem foldl_insertBy_perm {α : Type} (le : α → α → Bool) :
    ∀ (l acc : List α),
      List.Perm (l.foldl (fun a x => insertBy le x a) acc) (acc ++ l)
  | [], acc => by simp
  | x :: xs, acc => by
    have h1 := foldl_insertBy_perm le xs (insertBy le x acc)
    have h2 : List.Perm (insertBy le x acc ++ xs) ((x :: acc) ++ xs) :=
      (insertBy_perm le x acc).append_right xs
    have h3 : List.Perm (x :: (acc ++ xs)) (acc ++ x :: xs) :=
      List.perm_middle.symm
    simpa using (h1.trans h2).trans h3

theorem sortBy_perm {α : Type} (le : α → α → Bool) (l : List α) :
    List.Perm (sortBy le l) l := by
  simpa using foldl_insertBy_perm le l []

theorem mem_insertBy {α : Type} (le : α → α → Bool) (x a : α) (l : List α) :
    a ∈ insertBy le x l ↔ a = x ∨ a ∈ l := by
  rw [(insertBy_perm le x l).mem_iff]
  simp

theorem insertBy_pairwise {α : Type} (le : α → α → Bool)
    (htot : ∀ a b, le a b = true ∨ le b a = true)
    (htrans : ∀ a b c, le a b = true → le b c = true → le a c = true)
    (x : α) : ∀ l : List α,
      l.Pairwise (fun a b => le a b = true) →
      (insertBy le x l).Pairwise (fun a b => le a b = true)
  | [], _ => by simp [insertBy]
  | y :: ys, h => by
    unfold insertBy
    rcases List.pairwise_cons.mp h with ⟨hy, hys⟩
    by_cases hle : le y x = true
    · simp only [hle, if_true]
      refine List.pairwise_cons.mpr ⟨?_, insertBy_pairwise le htot htrans x ys hys⟩
      intro z hz
      rcases (mem_insertBy le x z ys).mp hz with rfl | hz
      · exact hle
      · exact hy z hz
    · simp only [hle, if_false]
      have hxy : le x y = true := (htot x y).resolve_right (fun hc => hle hc)
      refine List.pairwise_cons.mpr ⟨?_, h⟩
      intro z hz
      rcases List.mem_cons.mp hz with rfl | hz
      · exact hxy
      · exact htrans x y z hxy (hy z hz)

theorem foldl_insertBy_pairwise {α : Type} (le : α → α → Bool)
    (htot : ∀ a b, le a b = true ∨ le b a = true)
    (htrans : ∀ a b c, le a b = true → le b c = true → le a c = true) :
    ∀ (l acc : List α),
      acc.Pairwise (fun a b => le a b = true) →
      (l.foldl (fun a x => insertBy le x a) acc).Pairwise
        (fun a b => le a b = true)
  | [], _, hacc => hacc
  | x :: xs, acc, hacc =>
    foldl_insertBy_pairwise le htot htrans xs (insertBy le x acc)
      (insertBy_pairwise le htot htrans x acc hacc)

theorem sortBy_pairwise {α : Type} (le : α → α → Bool)
    (htot : ∀ a b, le a b = true ∨ le b a = true)
    (htrans : ∀ a b c, le a b = true → le b c = true → le a c = true)
    (l : List α) :
    (sortBy le l).Pairwise (fun a b => le a b = true) :=
  foldl_insertBy_pairwise le htot htrans l [] (List.Pairwise.nil)

theorem charsLe_total : ∀ a b : List Char, charsLe a b = true ∨ charsLe b a = true
  | [], _ => Or.inl rfl
  | _ :: _, [] => Or.inr rfl
  | a :: as, b :: bs => by
    unfold charsLe
    by_cases hab : a = b
    · subst hab
      simpa using charsLe_total as bs
    · have hba : b ≠ a := fun hc => hab hc.symm
      simp only [hab, hba, if_false]
      rcases lt_trichotomy a b with h | h | h
      · exact Or.inl (by simpa using h)
      · exact absurd h hab
      · exact Or.inr (by simpa using h)

theorem charsLe_trans : ∀ a b c : List Char,
    charsLe a b = true → charsLe b c = true → charsLe a c = true
  | [], _, _, _, _ => rfl
  | _ :: _, [], _, hab, _ => by simp [charsLe] at hab
  | _ :: _, _ :: _, [], _, hbc => by simp [charsLe] at hbc
  | a :: as, b :: bs, c :: cs, hab, hbc => by
    unfold charsLe at hab hbc ⊢
    by_cases h1 : a = b
    · subst h1
      by_cases h2 : a = c
      · subst h2
        simp only [if_pos rfl] at hab hbc ⊢
        exact charsLe_trans as bs cs hab hbc
      · simp only [if_pos rfl] at hab
        simp only [h2, if_neg] at hbc ⊢
        exact hbc
    · simp only [h1, if_false] at hab
      have hab' : a < b := by simpa using hab
      by_cases h2 : b = c
      · subst h2
        simp only [h1, if_false]
        simpa using hab'
      · simp only [h2, if_false] at hbc
        have hbc' : b < c := by simpa using hbc
        have hac : a < c := hab'.trans hbc'
        have h3 : a ≠ c := ne_of_lt hac
        simp only [h3, if_false]
        simpa using hac

theorem strLe_total (a b : String) : strLe a b = true ∨ strLe b a = true :=
  charsLe_total a.toList b.toList

theorem strLe_trans (a b c : String) :
    strLe a b = true → strLe b c = true → strLe a c = true :=
  charsLe_trans a.toList b.toList c.toList

/-- The composite execution-order relation: strictly greater priority, or
equal priority with alphabetically smaller (or equal) attribute name. -/
def execBefore {σ : Type} (a b : Step σ) : Prop :=
  b.priority < a.priority ∨ (a.priority = b.priority ∧ strLe a.name b.name = true)

theorem insertBy_prioGe_pairwise {σ : Type} (x : Step σ) :
    ∀ acc : List (Step σ),
      acc.Pairwise execBefore →
      (∀ a ∈ acc, strLe a.name x.name = true) →
      (insertBy prioGe x acc).Pairwise execBefore
  | [], _, _ => by simp [insertBy]
  | y :: ys, hacc, hname => by
    unfold insertBy
    rcases List.pairwise_cons.mp hacc with ⟨hy, hys⟩
    by_cases hle : prioGe y x = true
    · simp only [hle, if_true]
      refine List.pairwise_cons.mpr ⟨?_, ?_⟩
      · intro z hz
        rcases (mem_insertBy prioGe x z ys).mp hz with rfl | hz
        · have hpx : z.priority ≤ y.priority := by
            simpa [prioGe] using hle
          rcases lt_or_eq_of_le hpx with h | h
          · exact Or.inl h
          · exact Or.inr ⟨h.symm, hname y (by simp)⟩
        · exact hy z hz
      · exact insertBy_prioGe_pairwise x ys hys
          (fun a ha => hname a (List.mem_cons_of_mem y ha))
    · simp only [hle, if_false]
      have hlt : y.priority < x.priority := by
        have := hle
        simp only [prioGe, decide_eq_true_eq] at this
        omega
      refine List.pairwise_cons.mpr ⟨?_, hacc⟩
      intro z hz
      rcases List.mem_cons.mp hz with rfl | hz
      · exact Or.inl hlt
      · rcases hy z hz with h | h
        · exact Or.inl (h.trans hlt)
        · exact Or.inl (h.1 ▸ hlt)

theorem foldl_insertBy_prioGe_pairwise {σ : Type} :
    ∀ (l acc : List (Step σ)),
      acc.Pairwise execBefore →
      (∀ a ∈ acc, ∀ b ∈ l, strLe a.name b.name = true) →
      l.Pairwise (fun a b => nameLe a b = true) →
      (l.foldl (fun a x => insertBy prioGe x a) acc).Pairwise execBefore
  | [], _, hacc, _, _ => hacc
  | x :: xs, acc, hacc, hcross, hl => by
    rcases List.pairwise_cons.mp hl with ⟨hx, hxs⟩
    refine foldl_insertBy_prioGe_pairwise xs (insertBy prioGe x acc) ?_ ?_ hxs
    · exact insertBy_prioGe_pairwise x acc hacc
        (fun a ha => hcross a ha x (by simp))
    · intro a ha b hb
      rcases (mem_insertBy prioGe x a acc).mp ha with rfl | ha
      · exact hx b hb
      · exact hcross a ha b (List.mem_cons_of_mem x hb)

/-! ### C3 -/

/-- C3 counterexample: two steps with equal priority, declared in the
order `zz` then `aa`, execute in alphabetical order `aa` then `zz` — the
tie is broken by `dir()`'s alphabetical attribute listing, not by
declaration order, so the claimed tie-break is false at this input.  The
bodies append distinct letters, so the run output records the order. -/
def step_zz : Step String :=
  { name := "zz", priority := 5, req := Option.none,
    body := fun st fl => (st ++ "z", fl) }

def step_aa : Step String :=
  { name := "aa", priority := 5, req := Option.none,
    body := fun st fl => (st ++ "a", fl) }

def tieConf : Conf String String :=
  { steps := [step_zz, step_aa], short_circuit := true, debug := false,
    options := [], initialize_state := fun _ item => item }

/-- C3 counterexample (see above): with equal priorities, execution order
is `["aa", "zz"]`, not the declaration order `["zz", "aa"]`, and the run
produces `"az"` rather than the `"za"` declaration order would give. -/
theorem method_order_tie_cex :
    step_zz.priority = step_aa.priority ∧
    (methodsSorted [step_zz, step_aa]).map Step.name = ["aa", "zz"] ∧
    (methodsSorted [step_zz, step_aa]).map Step.name ≠ [step_zz.name, step_aa.name] ∧
    wfCall tieConf [""] (fun w => w.state) Option.none (initialWFState "")
      = ["az"] := by
  decide

/-- C3 amended: the executed methods are exactly the declared workflow
methods (a permutation), in strictly descending priority order, with ties
broken by the alphabetical attribute-name order in which `dir()`
enumerates them (not by declaration order); both sorts are deterministic
functions of the declared set. -/
theorem wf_method_order {σ : Type} (steps : List (Step σ)) :
    List.Perm (methodsSorted steps) steps ∧
    (methodsSorted steps).Pairwise (fun a b =>
      b.priority < a.priority ∨
        (a.priority = b.priority ∧ strLe a.name b.name = true)) := by
  constructor
  · exact (sortBy_perm prioGe (sortBy nameLe steps)).trans (sortBy_perm nameLe steps)
  · have hname : (sortBy nameLe steps).Pairwise (fun a b => nameLe a b = true) :=
      sortBy_pairwise nameLe
        (fun a b => strLe_total a.name b.name)
        (fun a b c => strLe_trans a.name b.name c.name)
        steps
    have := foldl_insertBy_prioGe_pairwise (sortBy nameLe steps) []
      List.Pairwise.nil (by intro a ha; simp at ha) hname
    exact this

/-! ### Helper lemmas about the executor loop -/

theorem itemLoop_of_failed {σ : Type} (fs : List (WFState σ → WFState σ))
    (w : WFState σ) (h : w.failed = true) : itemLoop true fs w = w := by
  cases fs with
  | nil => rfl
  | cons f fs => simp [itemLoop, h]

theorem itemLoop_extend_of_failed {σ : Type} :
    ∀ (fs : List (WFState σ → WFState σ)) (k : Nat) (w : WFState σ),
      (itemLoop true (fs.take k) w).failed = true →
      itemLoop true fs w = itemLoop true (fs.take k) w
  | [], k, w, _ => by simp
  | f :: fs, 0, w, h => by
    simp only [List.take_zero, itemLoop] at h ⊢
    exact itemLoop_of_failed (f :: fs) w h
  | f :: fs, k + 1, w, h => by
    simp only [List.take_succ_cons, itemLoop] at h ⊢
    by_cases hw : w.failed = true
    · simp [hw]
    · simp only [hw, Bool.and_false, Bool.true_and, if_false] at h ⊢
      exact itemLoop_extend_of_failed fs k (f w) h

theorem debugWrapped_trace_length {σ : Type} (s : Step σ)
    (opts : List (String × Value)) (w : WFState σ) :
    (debugWrapped s opts w).debug_trace.length ≤ w.debug_trace.length + 1 := by
  simp only [debugWrapped]
  split
  · refine le_trans ((List.erase_sublist _ _).length_le) ?_
    simp
  · simp
  · simp

theorem itemLoop_trace_length {σ : Type} (sc : Bool)
    (opts : List (String × Value)) :
    ∀ (ss : List (Step σ)) (w : WFState σ),
      (itemLoop sc (ss.map (fun s => debugWrapped s opts)) w).debug_trace.length
        ≤ w.debug_trace.length + ss.length
  | [], w => by simp [itemLoop]
  | s :: ss, w => by
    simp only [List.map_cons, itemLoop, List.length_cons]
    by_cases h : (sc && w.failed) = true
    · rw [if_pos h]
      omega
    · rw [if_neg h]
      have h1 := itemLoop_trace_length sc opts ss (debugWrapped s opts w)
      have h2 := debugWrapped_trace_length s opts w
      omega

/-! ### C2 -/

/-- C2: with `short_circuit=True` and `debug=True`, if processing the
first `k+1` methods of an item already leaves the instance failed, the
whole item run is identical to that truncated run — no later method is
invoked at all (its requirement is never even evaluated, since the loop
breaks before calling it) — and when the failure happened at a non-final
method, the debug trace is strictly shorter than the total method count. -/
theorem wf_short_circuit {σ ι : Type} (conf : Conf σ ι) (w : WFState σ)
    (item : ι) (k : Nat)
    (hsc : conf.short_circuit = true) (hdb : conf.debug = true)
    (hfail : (itemLoop true (((methodsSorted conf.steps).map
        (fun s => debugWrapped s conf.options)).take (k + 1))
        (setupDebugTrace (initItem conf w item))).failed = true) :
    processItem conf w item
      = itemLoop true (((methodsSorted conf.steps).map
          (fun s => debugWrapped s conf.options)).take (k + 1))
          (setupDebugTrace (initItem conf w item))
    ∧ (k + 1 < (methodsSorted conf.steps).length →
        (processItem conf w item).debug_trace.length
          < (methodsSorted conf.steps).length) := by
  have hproc : processItem conf w item
      = itemLoop true ((methodsSorted conf.steps).map
          (fun s => debugWrapped s conf.options))
          (setupDebugTrace (initItem conf w item)) := by
    simp only [processItem, workflowFuncs, hsc, hdb, if_true, itemLoop]
    have hif : (true && (initItem conf w item).failed) = false := by
      simp [initItem]
    simp [hif, itemLoop]
  have hmain : processItem conf w item
      = itemLoop true (((methodsSorted conf.steps).map
          (fun s => debugWrapped s conf.options)).take (k + 1))
          (setupDebugTrace (initItem conf w item)) :=
    hproc.trans (itemLoop_extend_of_failed _ (k + 1) _ hfail)
  refine ⟨hmain, fun hk => ?_⟩
  rw [hmain, ← List.map_take]
  have hlen := itemLoop_trace_length true conf.options
    ((methodsSorted conf.steps).take (k + 1))
    (setupDebugTrace (initItem conf w item))
  have htr : (setupDebugTrace (initItem conf w item)).debug_trace.length = 0 := by
    simp [setupDebugTrace]
  have htk : ((methodsSorted conf.steps).take (k + 1)).length
      = min (k + 1) (methodsSorted conf.steps).length := by
    simp
  omega

/-- C2 witness: the `SequenceProcessor` in debug mode, on the short
sequence `'ATAGACC'`: already the first method (`check_length`) fails the
item, the run equals the one-method run, and the trace has fewer entries
than the three methods. -/
theorem wf_short_circuit_witness :
    seqDebugConf.short_circuit = true ∧ seqDebugConf.debug = true ∧
    (itemLoop true (((methodsSorted seqDebugConf.steps).map
        (fun s => debugWrapped s seqDebugConf.options)).take (0 + 1))
        (setupDebugTrace (initItem seqDebugConf (initialWFState "") "ATAGACC"))).failed
      = true ∧
    (processItem seqDebugConf (initialWFState "") "ATAGACC"
      = itemLoop true (((methodsSorted seqDebugConf.steps).map
          (fun s => debugWrapped s seqDebugConf.options)).take (0 + 1))
          (setupDebugTrace (initItem seqDebugConf (initialWFState "") "ATAGACC"))
    ∧ (0 + 1 < (methodsSorted seqDebugConf.steps).length →
        (processItem seqDebugConf (initialWFState "") "ATAGACC").debug_trace.length
          < (methodsSorted seqDebugConf.steps).length)) :=
  ⟨rfl, rfl, by decide,
    wf_short_circuit seqDebugConf (initialWFState "") "ATAGACC" 0 rfl rfl (by decide)⟩

/-! ### C4 -/

/-- A step gated only by an option requirement, as produced by stacking
`Workflow.method` over `Workflow.requires(option=o, values=rv)`. -/
def gateStep {σ : Type} (o : String) (rv : RawValues)
    (b : σ → Bool → σ × Bool) : Step σ :=
  { name := "gated", priority := 0,
    req := Option.some { option := Option.some o, values := normalizeValues rv,
                         required_state := Option.none },
    body := b }

/-- C4 counterexample: a requirement with the single string literal
`'AATTG'` and an option value `'AT'` that is *not equal* to the literal —
yet the step body executes, because membership in a kept-whole `str`
(`val in self.values`) is Python's substring test.  So "runs iff the
value equals the literal" is false for string literals. -/
theorem requires_str_literal_cex :
    (runStepInner (gateStep "foo" (RawValues.str "AATTG")
        (fun (st : String) fl => (st ++ "X", fl)))
        [("foo", Value.str "AT")] "s" false).2 = ExecResult.executed
    ∧ (runStepInner (gateStep "foo" (RawValues.str "AATTG")
        (fun (st : String) fl => (st ++ "X", fl)))
        [("foo", Value.str "AT")] "s" false).1 = ("sX", false)
    ∧ Value.str "AT" ≠ Value.str "AATTG" := by
  decide

/-- C4 amended: with the option key present and carrying value `v`, a
step gated by an explicit `set` executes iff `v` is `==`-equal to a
member, and one gated by a single non-iterable literal executes iff `v`
is `==`-equal to it; but one gated by a single *string* literal, for a
string-valued option, executes iff the value occurs as a substring of
the literal (equal strings pass, and so do proper substrings), while a
non-string value against a string literal raises `TypeError` — the run
aborts rather than the step being skipped.  Whatever the values spec,
when the gate passes the body is applied, and on a skip or a raise the
state and failure flag are exactly as before the call. -/
theorem requires_gate_explicit {σ : Type} (o : String)
    (opts : List (String × Value)) (v : Value) (st : σ) (fl : Bool)
    (b : σ → Bool → σ × Bool) (vs : List Value) (u : Value) (lit : String)
    (rv : RawValues) (hv : List.lookup o opts = Option.some v) :
    ((runStepInner (gateStep o (RawValues.set vs) b) opts st fl).2
        = ExecResult.executed ↔ vs.any (fun x => pyEq v x) = true)
    ∧ ((runStepInner (gateStep o (RawValues.single u) b) opts st fl).2
        = ExecResult.executed ↔ pyEq v u = true)
    ∧ (∀ t : String, v = Value.str t →
        ((runStepInner (gateStep o (RawValues.str lit) b) opts st fl).2
          = ExecResult.executed ↔ strContains lit t = true))
    ∧ ((∀ t : String, v ≠ Value.str t) →
        (runStepInner (gateStep o (RawValues.str lit) b) opts st fl).2
          = ExecResult.raised)
    ∧ ((runStepInner (gateStep o rv b) opts st fl).2 = ExecResult.executed
        → (runStepInner (gateStep o rv b) opts st fl).1 = b st fl)
    ∧ ((runStepInner (gateStep o rv b) opts st fl).2 = ExecResult.notExecuted
        → (runStepInner (gateStep o rv b) opts st fl).1 = (st, fl))
    ∧ ((runStepInner (gateStep o rv b) opts st fl).2 = ExecResult.raised
        → (runStepInner (gateStep o rv b) opts st fl).1 = (st, fl)) := by
  have key : ∀ rv0 : RawValues,
      runStepInner (gateStep o rv0 b) opts st fl =
        if normalizeValues rv0 = ValuesSpec.not_none ∧ v ≠ Value.pynone
        then (b st fl, ExecResult.executed)
        else
          match valuesContains (normalizeValues rv0) v with
          | Option.none => ((st, fl), ExecResult.raised)
          | Option.some verdict =>
            if verdict then (b st fl, ExecResult.executed)
            else ((st, fl), ExecResult.notExecuted) := by
    intro rv0
    simp only [runStepInner, gateStep, runReqOpt, hv]
  refine ⟨?_, ?_, ?_, ?_, ?_, ?_, ?_⟩
  · rw [key (RawValues.set vs)]
    by_cases hc : vs.any (fun x => pyEq v x) = true
    · simp [normalizeValues, valuesContains, hc]
    · simp [normalizeValues, valuesContains, hc]
  · rw [key (RawValues.single u)]
    by_cases hc : pyEq v u = true
    · simp [normalizeValues, valuesContains, hc]
    · simp [normalizeValues, valuesContains, hc]
  · intro t hvt
    subst hvt
    rw [key (RawValues.str lit)]
    by_cases hc : strContains lit t = true
    · simp [normalizeValues, valuesContains, hc]
    · simp [normalizeValues, valuesContains, hc]
  · intro hns
    rw [key (RawValues.str lit)]
    cases v with
    | str t => exact absurd rfl (hns t)
    | bool bb => simp [normalizeValues, valuesContains]
    | int n => simp [normalizeValues, valuesContains]
    | pynone => simp [normalizeValues, valuesContains]
  · rw [key rv]
    repeat' split
    all_goals intro h
    all_goals first | rfl | cases h
  · rw [key rv]
    repeat' split
    all_goals intro h
    all_goals first | rfl | cases h
  · rw [key rv]
    repeat' split
    all_goals intro h
    all_goals first | rfl | cases h

/-- C4 witness for the amended theorem, at a concrete option map carrying
the string value `'y'` and concrete set, literal, string and raw specs. -/
theorem requires_gate_explicit_witness :
    List.lookup "k" [("k", Value.str "y")] = Option.some (Value.str "y")
    ∧ (((runStepInner (gateStep "k" (RawValues.set [Value.str "y"])
          (fun (st : String) fl => (st, fl))) [("k", Value.str "y")] "s" false).2
          = ExecResult.executed
        ↔ [Value.str "y"].any (fun x => pyEq (Value.str "y") x) = true)
      ∧ ((runStepInner (gateStep "k" (RawValues.single (Value.str "z"))
          (fun (st : String) fl => (st, fl))) [("k", Value.str "y")] "s" false).2
          = ExecResult.executed
        ↔ pyEq (Value.str "y") (Value.str "z") = true)
      ∧ (∀ t : String, Value.str "y" = Value.str t →
          ((runStepInner (gateStep "k" (RawValues.str "xy")
            (fun (st : String) fl => (st, fl))) [("k", Value.str "y")] "s" false).2
            = ExecResult.executed
          ↔ strContains "xy" t = true))
      ∧ ((∀ t : String, Value.str "y" ≠ Value.str t) →
          (runStepInner (gateStep "k" (RawValues.str "xy")
            (fun (st : String) fl => (st, fl))) [("k", Value.str "y")] "s" false).2
            = ExecResult.raised)
      ∧ ((runStepInner (gateStep "k" RawValues.anything
          (fun (st : String) fl => (st, fl))) [("k", Value.str "y")] "s" false).2
          = ExecResult.executed
        → (runStepInner (gateStep "k" RawValues.anything
          (fun (st : String) fl => (st, fl))) [("k", Value.str "y")] "s" false).1
          = ("s", false))
      ∧ ((runStepInner (gateStep "k" RawValues.anything
          (fun (st : String) fl => (st, fl))) [("k", Value.str "y")] "s" false).2
          = ExecResult.notExecuted
        → (runStepInner (gateStep "k" RawValues.anything
          (fun (st : String) fl => (st, fl))) [("k", Value.str "y")] "s" false).1
          = ("s", false))
      ∧ ((runStepInner (gateStep "k" RawValues.anything
          (fun (st : String) fl => (st, fl))) [("k", Value.str "y")] "s" false).2
          = ExecResult.raised
        → (runStepInner (gateStep "k" RawValues.anything
          (fun (st : String) fl => (st, fl))) [("k", Value.str "y")] "s" false).1
          = ("s", false))) :=
  ⟨by decide, requires_gate_explicit "k" [("k", Value.str "y")] (Value.str "y")
    "s" false (fun st fl => (st, fl)) [Value.str "y"] (Value.str "z") "xy"
    RawValues.anything (by decide)⟩

/-! ### C5 -/

theorem length_runStates {σ ι : Type} (conf : Conf σ ι) :
    ∀ (items : List ι) (w : WFState σ),
      (runStates conf w items).length = items.length
  | [], _ => rfl
  | it :: rest, w => by
    simp only [runStates, List.length_cons]
    rw [length_runStates conf rest]

theorem length_filterMap_lt_of_none {α β : Type} (f : α → Option β) :
    ∀ l : List α, (∃ x ∈ l, f x = Option.none) →
      (l.filterMap f).length < l.length
  | [], h => by rcases h with ⟨x, hx, _⟩; cases hx
  | a :: l, h => by
    rcases h with ⟨x, hx, hfx⟩
    rcases List.mem_cons.mp hx with rfl | hx
    · rw [List.filterMap_cons, hfx]
      have := List.length_filterMap_le f l
      simp only [List.length_cons]
      omega
    · have hrec := length_filterMap_lt_of_none f l ⟨x, hx, hfx⟩
      rw [List.filterMap_cons]
      cases hfa : f a
      · simp only [List.length_cons]
        omega
      · simp only [List.length_cons, List.length_cons]
        omega

theorem wfCall_default_eq {σ ι : Type} (conf : Conf σ ι) :
    ∀ (items : List ι) (w0 : WFState σ),
      wfCall conf items (fun w => w.state) Option.none w0
        = (runStates conf w0 items).filterMap
            (fun w => if w.failed = true then Option.none
                      else Option.some w.state)
  | [], _ => rfl
  | it :: rest, w0 => by
    simp only [wfCall, runStates, List.filterMap_cons]
    by_cases h : (processItem conf w0 it).failed = true
    · rw [if_pos h, if_pos h]
      simpa using wfCall_default_eq conf rest (processItem conf w0 it)
    · rw [if_neg h, if_neg h]
      simpa using wfCall_default_eq conf rest (processItem conf w0 it)

/-- C5: with no callbacks supplied — Python substitutes
`lambda x: x.state` for the missing success callback and yields nothing
on failure — the output is exactly the post-item `state` of each
successful item, failed items contribute nothing, and whenever some item
fails the output is strictly shorter than the input. -/
theorem default_callbacks {σ ι : Type} (conf : Conf σ ι) (items : List ι)
    (w0 : WFState σ) :
    wfCall conf items (fun w => w.state) Option.none w0
      = (runStates conf w0 items).filterMap
          (fun w => if w.failed = true then Option.none
                    else Option.some w.state)
    ∧ ((runStates conf w0 items).any (fun w => w.failed) = true →
        (wfCall conf items (fun w => w.state) Option.none w0).length
          < items.length) := by
  refine ⟨wfCall_default_eq conf items w0, fun hany => ?_⟩
  rw [wfCall_default_eq conf items w0]
  rcases List.any_eq_true.mp hany with ⟨x, hx, hfx⟩
  have := length_filterMap_lt_of_none
    (fun w : WFState σ => if w.failed = true then Option.none
                          else Option.some w.state)
    (runStates conf w0 items) ⟨x, hx, by simp [hfx]⟩
  rw [length_runStates conf items w0] at this
  exact this

/-- C5 witness: the `SequenceProcessor` run over the four example
sequences has a failing item (`'ATAGACC'`), so the default-callback
output has fewer elements than the input. -/
theorem default_callbacks_witness :
    (runStates seqConf (initialWFState "") seqInputs).any (fun w => w.failed)
      = true
    ∧ (wfCall seqConf seqInputs (fun w => w.state) Option.none
        (initialWFState "")).length < seqInputs.length :=
  ⟨by decide,
    (default_callbacks seqConf seqInputs (initialWFState "")).2 (by decide)⟩

/-! ### C6 -/

/-- C6 counterexample: one consumed input item (`'ATAGACC'`, which
fails), no fail callback — the output sequence is empty, not of length
one, so "exactly one result per consumed input item for every choice of
callbacks" is false. -/
theorem output_per_item_cex :
    (wfCall seqConf ["ATAGACC"] (fun w => w.state) Option.none
      (initialWFState "")).length = 0
    ∧ (["ATAGACC"] : List String).length = 1
    ∧ (0 : Nat) ≠ 1 := by
  decide

/-- C6 amended: when a fail callback is supplied (with any success
callback), the output sequence contains exactly one result per consumed
input item; without one, failed items yield nothing (see the
default-callback property). -/
theorem output_cardinality {σ ι ρ : Type} (conf : Conf σ ι) :
    ∀ (items : List ι) (succ : WFState σ → ρ) (f : WFState σ → ρ)
      (w0 : WFState σ),
      (wfCall conf items succ (Option.some f) w0).length = items.length
  | [], _, _, _ => rfl
  | it :: rest, succ, f, w0 => by
    have ih := output_cardinality conf rest succ f (processItem conf w0 it)
    simp only [wfCall]
    by_cases h : (processItem conf w0 it).failed = true
    · rw [if_pos h]
      simpa using ih
    · rw [if_neg h]
      simpa using ih

/-! ### C7 -/

/-- A step whose requirement can never pass because its option `'k'` is
absent from the run options. -/
def c7gated : Step String :=
  { name := "aa_gated", priority := 10,
    req := Option.some { option := Option.some "k",
                         values := ValuesSpec.anything,
                         required_state := Option.none },
    body := fun st fl => (st, fl) }

def c7runs : Step String :=
  { name := "bb_runs", priority := 5, req := Option.none,
    body := fun st fl => (st, fl) }

def c7conf : Conf String String :=
  { steps := [c7gated, c7runs], short_circuit := true, debug := true,
    options := [], initialize_state := fun _ item => item }

/-- C7 counterexample: when the first-ordered step is gated out, it still
consumes counter value 0, so the surviving trace is `[('bb_runs', 1)]` —
the order components do not start at 0. -/
theorem debug_trace_start_cex :
    (processItem c7conf (initialWFState "") "x").debug_trace
      = [("bb_runs", 1)]
    ∧ (1 : Nat) ≠ 0 := by
  decide

theorem debugWrapped_trace_invariant {σ : Type} (s : Step σ)
    (opts : List (String × Value)) (w : WFState σ)
    (h1 : w.debug_trace.Pairwise (fun k1 k2 => k1.2 < k2.2))
    (h2 : ∀ k ∈ w.debug_trace, k.2 < w.debug_counter) :
    (debugWrapped s opts w).debug_trace.Pairwise (fun k1 k2 => k1.2 < k2.2)
    ∧ ∀ k ∈ (debugWrapped s opts w).debug_trace,
        k.2 < (debugWrapped s opts w).debug_counter := by
  have happ : (w.debug_trace ++ [(s.name, w.debug_counter)]).Pairwise
      (fun k1 k2 : String × Nat => k1.2 < k2.2) := by
    rw [List.pairwise_append]
    refine ⟨h1, by simp, ?_⟩
    intro a ha b hb
    rw [List.mem_singleton.mp hb]
    exact h2 a ha
  have happ2 : ∀ k ∈ w.debug_trace ++ [(s.name, w.debug_counter)],
      k.2 < w.debug_counter + 1 := by
    intro k hk
    rcases List.mem_append.mp hk with hk | hk
    · exact Nat.lt_succ_of_lt (h2 k hk)
    · rw [List.mem_singleton.mp hk]
      exact Nat.lt_succ_self _
  simp only [debugWrapped]
  split
  · constructor
    · exact happ.sublist (List.erase_sublist _ _)
    · intro k hk
      exact happ2 k ((List.erase_sublist _ _).subset hk)
  · exact ⟨happ, happ2⟩
  · exact ⟨happ, happ2⟩

theorem itemLoop_trace_pairwise {σ : Type} (sc : Bool)
    (opts : List (String × Value)) :
    ∀ (ss : List (Step σ)) (w : WFState σ),
      w.debug_trace.Pairwise (fun k1 k2 => k1.2 < k2.2) →
      (∀ k ∈ w.debug_trace, k.2 < w.debug_counter) →
      (itemLoop sc (ss.map (fun s => debugWrapped s opts)) w).debug_trace.Pairwise
        (fun k1 k2 => k1.2 < k2.2)
  | [], w, h1, _ => by simpa [itemLoop] using h1
  | s :: ss, w, h1, h2 => by
    simp only [List.map_cons, itemLoop]
    by_cases h : (sc && w.failed) = true
    · rw [if_pos h]; exact h1
    · rw [if_neg h]
      have hw := debugWrapped_trace_invariant s opts w h1 h2
      exact itemLoop_trace_pairwise sc opts ss (debugWrapped s opts w) hw.1 hw.2

/-- C7 amended: with `debug=True`, processing an item first clears the
counter (to 0), the trace set, and the runtime and pre/post-state maps —
before any user step of that item runs — and within the item the order
components of the recorded trace keys are strictly increasing (the first
recorded key is 0 exactly when the first-ordered step executed, but may
be larger when earlier steps were gated out). -/
theorem debug_trace_reset_and_monotone {σ ι : Type} (conf : Conf σ ι)
    (w : WFState σ) (item : ι) (hdb : conf.debug = true) :
    processItem conf w item
      = itemLoop conf.short_circuit
          ((methodsSorted conf.steps).map (fun s => debugWrapped s conf.options))
          { w with failed := false,
                   state := conf.initialize_state w.state item,
                   debug_counter := 0, debug_trace := [], debug_runtime := [],
                   debug_pre_state := [], debug_post_state := [] }
    ∧ (processItem conf w item).debug_trace.Pairwise
        (fun k1 k2 => k1.2 < k2.2) := by
  have hmain : processItem conf w item
      = itemLoop conf.short_circuit
          ((methodsSorted conf.steps).map (fun s => debugWrapped s conf.options))
          { w with failed := false,
                   state := conf.initialize_state w.state item,
                   debug_counter := 0, debug_trace := [], debug_runtime := [],
                   debug_pre_state := [], debug_post_state := [] } := by
    simp only [processItem, workflowFuncs, hdb, if_true, itemLoop]
    rw [if_neg (by simp [initItem])]
    rfl
  refine ⟨hmain, ?_⟩
  rw [hmain]
  exact itemLoop_trace_pairwise conf.short_circuit conf.options
    (methodsSorted conf.steps) _ (by simp) (by simp)

/-- C7 witness: the debug-mode `SequenceProcessor` on `'AATTGCCGGAC'`. -/
theorem debug_trace_reset_and_monotone_witness :
    seqDebugConf.debug = true
    ∧ (processItem seqDebugConf (initialWFState "") "AATTGCCGGAC"
        = itemLoop seqDebugConf.short_circuit
            ((methodsSorted seqDebugConf.steps).map
              (fun s => debugWrapped s seqDebugConf.options))
            { initialWFState "" with
                failed := false,
                state := seqDebugConf.initialize_state (initialWFState "").state
                  "AATTGCCGGAC",
                debug_counter := 0, debug_trace := [], debug_runtime := [],
                debug_pre_state := [], debug_post_state := [] }
      ∧ (processItem seqDebugConf (initialWFState "") "AATTGCCGGAC").debug_trace.Pairwise
          (fun k1 k2 => k1.2 < k2.2)) :=
  ⟨rfl, debug_trace_reset_and_monotone seqDebugConf (initialWFState "")
    "AATTGCCGGAC" rfl⟩

/-! ### C8 -/

theorem runStepInner_skip_frame {σ : Type} (s : Step σ)
    (opts : List (String × Value)) (st : σ) (fl : Bool) :
    (runStepInner s opts st fl).2 = ExecResult.notExecuted →
    (runStepInner s opts st fl).1 = (st, fl) := by
  unfold runStepInner runReqOpt
  repeat' split
  all_goals intro h
  all_goals first | rfl | simp at h

theorem erase_append_singleton {α : Type} [BEq α] [LawfulBEq α] (a : α) :
    ∀ l : List α, a ∉ l → (l ++ [a]).erase a = l
  | [], _ => by simp
  | b :: l, h => by
    have h1 : ¬ (b == a) = true := by
      simp only [beq_iff_eq]
      intro hc
      exact h (by simp [hc])
    have h2 : a ∉ l := fun hc => h (List.mem_cons_of_mem b hc)
    simp only [List.cons_append, List.erase_cons]
    rw [if_neg h1, erase_append_singleton a l h2]

/-- Steps used to exhibit a gap in the recorded trace: the middle one is
gated out by a missing option. -/
def gapA : Step String :=
  { name := "aa_first", priority := 30, req := Option.none,
    body := fun st fl => (st, fl) }

def gapB : Step String :=
  { name := "bb_gated", priority := 20,
    req := Option.some { option := Option.some "missing",
                         values := ValuesSpec.anything,
                         required_state := Option.none },
    body := fun st fl => (st, fl) }

def gapC : Step String :=
  { name := "cc_last", priority := 10, req := Option.none,
    body := fun st fl => (st, fl) }

def gapConf : Conf String String :=
  { steps := [gapA, gapB, gapC], short_circuit := true, debug := true,
    options := [], initialize_state := fun _ item => item }

/-- C8: a step whose requirement is not satisfied still consumes one
counter value — the wrapped call leaves the instance exactly as before
except that `debug_counter` advanced by one: the key was added to the
trace and removed again, and no runtime, pre-state or post-state entry
was made.  Consequently surviving trace keys can have gaps: in the
three-step `gapConf` run the middle step is gated out and the per-item
trace is `[('aa_first', 0), ('cc_last', 2)]`. -/
theorem gated_step_counter {σ : Type} (s : Step σ)
    (opts : List (String × Value)) (w : WFState σ)
    (hkey : (s.name, w.debug_counter) ∉ w.debug_trace)
    (hskip : (runStepInner s opts w.state w.failed).2 = ExecResult.notExecuted) :
    debugWrapped s opts w = { w with debug_counter := w.debug_counter + 1 }
    ∧ (processItem gapConf (initialWFState "") "x").debug_trace
        = [("aa_first", 0), ("cc_last", 2)] := by
  have hframe := runStepInner_skip_frame s opts w.state w.failed hskip
  constructor
  · simp only [debugWrapped, hskip, hframe]
    rw [erase_append_singleton _ _ hkey]
  · decide

/-- The instance state just after `gapA` ran under debug (counter 1,
trace `[('aa_first', 0)]`), used to witness the gated-step property. -/
def c8w : WFState String :=
  { initialWFState "x" with
      debug_counter := 1,
      debug_trace := [("aa_first", 0)] }

/-- C8 witness: the gated step `gapB`, at the instance state `c8w`. -/
theorem gated_step_counter_witness :
    (("bb_gated", 1) ∉ c8w.debug_trace)
    ∧ (runStepInner gapB ([] : List (String × Value)) c8w.state c8w.failed).2
      = ExecResult.notExecuted
    ∧ (debugWrapped gapB [] c8w
        = { c8w with debug_counter := c8w.debug_counter + 1 }
    ∧ (processItem gapConf (initialWFState "") "x").debug_trace
        = [("aa_first", 0), ("cc_last", 2)]) :=
  ⟨by decide, by decide,
    gated_step_counter gapB [] c8w (by decide) (by decide)⟩

/-! ### C9 -/

/-- C9: the debug trace wrapper is transparent to failure signalling —
after the wrapped call, `failed` is exactly the value the inner call
left it at; in particular a step whose requirement was not satisfied
leaves `failed` unchanged. -/
theorem tracer_failed_transparent {σ : Type} (s : Step σ)
    (opts : List (String × Value)) (w : WFState σ) :
    (debugWrapped s opts w).failed = (runStepInner s opts w.state w.failed).1.2
    ∧ ((runStepInner s opts w.state w.failed).2 = ExecResult.notExecuted →
        (debugWrapped s opts w).failed = w.failed) := by
  constructor
  · simp only [debugWrapped]
    split <;> rfl
  · intro h
    have hframe := runStepInner_skip_frame s opts w.state w.failed h
    simp only [debugWrapped, h, hframe]

/-- C9 witness: the gated step `gapB` on a fresh instance. -/
theorem tracer_failed_transparent_witness :
    (runStepInner gapB ([] : List (String × Value))
        (initialWFState "x").state (initialWFState "x").failed).2
      = ExecResult.notExecuted
    ∧ (debugWrapped gapB [] (initialWFState "x")).failed
      = (initialWFState "x").failed :=
  ⟨by decide,
    (tracer_failed_transparent gapB [] (initialWFState "x")).2 (by decide)⟩

/-! ### C10 -/

/-- The attribute names a fresh `Workflow` instance already has when
`__init__` reaches the `kwargs` loop: the five instance attributes just
assigned, plus the class attributes of `Workflow` (`hasattr` also sees
methods; dunder names are omitted as no keyword can collide with them in
practice). -/
def baseAttrs : List String :=
  ["options", "short_circuit", "failed", "debug", "state",
   "initialize_state", "_setup_debug", "_all_wf_methods",
   "_setup_debug_trace", "_debug_trace_wrapper", "method", "requires"]

/-- The `kwargs` loop of `Workflow.__init__`: walk the keyword arguments
in order; raise `AttributeError` naming the first key for which
`hasattr(self, k)` holds, otherwise `setattr` the value (which makes the
key visible to later iterations). -/
def applyKwargs : List String → List (String × Value) →
    Except String (List (String × Value))
  | _, [] => Except.ok []
  | attrs, (k, v) :: rest =>
    if k ∈ attrs then Except.error k
    else (applyKwargs (k :: attrs) rest).map (fun l => (k, v) :: l)

/-- The successfully constructed instance. -/
structure WFInstance (σ : Type) where
  state : σ
  short_circuit : Bool
  failed : Bool
  debug : Bool
  options : List (String × Value)
  extra : List (String × Value)
deriving DecidableEq, Repr

/-- Model of `Workflow.__init__`: set the five instance attributes, then process
the extra keyword arguments; a collision raises (modelled by
`Except.error`) at construction time — a run can only be invoked on a
successfully constructed instance. -/
def workflowInit {σ : Type} (st : σ) (sc dbg : Bool)
    (opts : List (String × Value)) (classAttrs : List String)
    (kwargs : List (String × Value)) : Except String (WFInstance σ) :=
  match applyKwargs (baseAttrs ++ classAttrs) kwargs with
  | Except.error k => Except.error k
  | Except.ok extra =>
    Except.ok { state := st, short_circuit := sc, failed := false,
                debug := dbg, options := opts, extra := extra }

theorem applyKwargs_ok_iff :
    ∀ (kwargs : List (String × Value)) (attrs : List String),
      (kwargs.map Prod.fst).Nodup →
      ((applyKwargs attrs kwargs).isOk = true
        ↔ ∀ k ∈ kwargs.map Prod.fst, k ∉ attrs)
  | [], attrs, _ => by simp [applyKwargs, Except.isOk, Except.toBool]
  | (k, v) :: rest, attrs, hnd => by
    have hnd' : (k :: rest.map Prod.fst).Nodup := hnd
    rcases List.nodup_cons.mp hnd' with ⟨hk, hrest⟩
    simp only [applyKwargs, List.map_cons, List.mem_cons]
    by_cases hmem : k ∈ attrs
    · rw [if_pos hmem]
      constructor
      · intro h; cases h
      · intro h
        exact absurd hmem (h k (Or.inl rfl))
    · rw [if_neg hmem]
      have hmap : ((applyKwargs (k :: attrs) rest).map
          (fun l => (k, v) :: l)).isOk = (applyKwargs (k :: attrs) rest).isOk := by
        cases applyKwargs (k :: attrs) rest <;> rfl
      rw [hmap, applyKwargs_ok_iff rest (k :: attrs) hrest]
      constructor
      · intro h x hx
        rcases hx with rfl | hx
        · exact hmem
        · intro hc
          exact h x hx (List.mem_cons_of_mem k hc)
      · intro h x hx hc
        rcases List.mem_cons.mp hc with rfl | hc
        · exact hk hx
        · exact h x (Or.inr hx) hc

theorem applyKwargs_ok_val :
    ∀ (kwargs : List (String × Value)) (attrs : List String)
      (l : List (String × Value)),
      applyKwargs attrs kwargs = Except.ok l → l = kwargs
  | [], _, l, h => by
    simp only [applyKwargs] at h
    cases h
    rfl
  | (k, v) :: rest, attrs, l, h => by
    simp only [applyKwargs] at h
    by_cases hmem : k ∈ attrs
    · rw [if_pos hmem] at h
      cases h
    · rw [if_neg hmem] at h
      cases hrec : applyKwargs (k :: attrs) rest with
      | error e => rw [hrec] at h; cases h
      | ok l2 =>
        rw [hrec] at h
        simp only [Except.map] at h
        cases h
        rw [applyKwargs_ok_val rest (k :: attrs) l2 hrec]

theorem applyKwargs_error_mem :
    ∀ (kwargs : List (String × Value)) (attrs : List String) (k : String),
      (kwargs.map Prod.fst).Nodup →
      applyKwargs attrs kwargs = Except.error k →
      k ∈ attrs ∧ k ∈ kwargs.map Prod.fst
  | [], _, k, _, h => by simp [applyKwargs] at h
  | (k0, v) :: rest, attrs, k, hnd, h => by
    have hnd' : (k0 :: rest.map Prod.fst).Nodup := hnd
    rcases List.nodup_cons.mp hnd' with ⟨hk0, hrest⟩
    simp only [applyKwargs] at h
    by_cases hmem : k0 ∈ attrs
    · rw [if_pos hmem] at h
      cases h
      exact ⟨hmem, by simp⟩
    · rw [if_neg hmem] at h
      cases hrec : applyKwargs (k0 :: attrs) rest with
      | error e =>
        rw [hrec] at h
        simp only [Except.map] at h
        cases h
        rcases applyKwargs_error_mem rest (k0 :: attrs) k hrest hrec with ⟨h1, h2⟩
        rcases List.mem_cons.mp h1 with rfl | h1
        · exact absurd h2 hk0
        · exact ⟨h1, by simp [h2]⟩
      | ok l2 =>
        rw [hrec] at h
        simp [Except.map] at h

/-- C10: an extra keyword supplied at construction is attached only if no
attribute of that name exists: construction succeeds iff no keyword
collides with an existing attribute, a successful construction records
exactly the supplied keywords (and a fresh, non-failed instance), and a
failed construction names a colliding keyword — the error is produced by
the constructor itself, so it precedes any run (a run needs the
constructed instance). -/
theorem construction_collision {σ : Type} (st : σ) (sc dbg : Bool)
    (opts : List (String × Value)) (classAttrs : List String)
    (kwargs : List (String × Value))
    (hnd : (kwargs.map Prod.fst).Nodup) :
    ((workflowInit st sc dbg opts classAttrs kwargs).isOk = true
      ↔ ∀ k ∈ kwargs.map Prod.fst, k ∉ baseAttrs ++ classAttrs)
    ∧ (∀ inst : WFInstance σ,
        workflowInit st sc dbg opts classAttrs kwargs = Except.ok inst →
        inst.extra = kwargs ∧ inst.state = st ∧ inst.failed = false)
    ∧ (∀ k : String,
        workflowInit st sc dbg opts classAttrs kwargs = Except.error k →
        k ∈ baseAttrs ++ classAttrs ∧ k ∈ kwargs.map Prod.fst) := by
  refine ⟨?_, ?_, ?_⟩
  · have hok : (workflowInit (σ := σ) st sc dbg opts classAttrs kwargs).isOk
        = (applyKwargs (baseAttrs ++ classAttrs) kwargs).isOk := by
      simp only [workflowInit]
      cases applyKwargs (baseAttrs ++ classAttrs) kwargs <;> rfl
    rw [hok]
    exact applyKwargs_ok_iff kwargs (baseAttrs ++ classAttrs) hnd
  · intro inst h
    simp only [workflowInit] at h
    cases hrec : applyKwargs (baseAttrs ++ classAttrs) kwargs with
    | error e => rw [hrec] at h; cases h
    | ok l =>
      rw [hrec] at h
      cases h
      exact ⟨applyKwargs_ok_val kwargs _ l hrec, rfl, rfl⟩
  · intro k h
    simp only [workflowInit] at h
    cases hrec : applyKwargs (baseAttrs ++ classAttrs) kwargs with
    | error e =>
      rw [hrec] at h
      cases h
      exact applyKwargs_error_mem kwargs _ k hnd hrec
    | ok l => rw [hrec] at h; cases h

/-- C10 witness: a single keyword `'state'`, which collides with the
instance attribute set by `__init__` itself. -/
theorem construction_collision_witness :
    (([("state", Value.int 0)].map Prod.fst).Nodup)
    ∧ (((workflowInit "" true false [] [] [("state", Value.int 0)]).isOk = true
        ↔ ∀ k ∈ [("state", Value.int 0)].map Prod.fst, k ∉ baseAttrs ++ [])
    ∧ (∀ inst : WFInstance String,
        workflowInit "" true false [] [] [("state", Value.int 0)]
          = Except.ok inst →
        inst.extra = [("state", Value.int 0)] ∧ inst.state = "" ∧
          inst.failed = false)
    ∧ (∀ k : String,
        workflowInit "" true false [] [] [("state", Value.int 0)]
          = Except.error k →
        k ∈ baseAttrs ++ [] ∧ k ∈ [("state", Value.int 0)].map Prod.fst)) :=
  ⟨by decide,
    construction_collision "" true false [] [] [("state", Value.int 0)]
      (by decide)⟩

/-! ### C1 -/

/-- C1: running the four example sequences through the
`SequenceProcessor` with `options = {'reverse': False}` yields, in order,
a success with `'AAAAAAATTTTTTT'` unchanged, a failure for `'ATAGACC'`,
a success with `'CCGGAC'` (truncated from `'AATTGCCGGAC'`), and a success
with `'ATATGAACAAA'` unchanged. -/
theorem seqProc_end_to_end :
    wfCall seqConf seqInputs
      (fun w => ("SUCCESS", w.state))
      (Option.some (fun w => ("FAIL", w.state)))
      (initialWFState "")
    = [("SUCCESS", "AAAAAAATTTTTTT"), ("FAIL", "ATAGACC"),
       ("SUCCESS", "CCGGAC"), ("SUCCESS", "ATATGAACAAA")] := by
  decide
